import Mathlib

/-!
Shallow embedding of `src/pkg/p2p/preheat/policy/manager.go` (package
`policy`): the preheat policy manager and its normalization pass
(`parsePolicy`, `parseFilters`, `parseTrigger`, `ListPolicies`,
`ListPoliciesByProject`), together with theorems settling the claims
about it.

External collaborators (the DAO/Store, the JSON codec) are modelled as
explicit function parameters; repository packages that are not part of
the analysed source (`models/policy`, `lib/q`, `lib/errors`) are
modelled from the spec, as marked on each definition.
-/

namespace PreheatPolicy

/-- Modelled from the spec: the dynamic values produced by decoding
serialized text into a Go `interface` value. Go's `encoding/json`
decodes every JSON number into a `float64`; we model the decoded
numeric value by the rational number it denotes. The `int` variant is
never produced by decoding: it is the Go `int` that the severity
coercion writes into a filter's `Value`. -/
inductive JValue where
  | str (s : String)
  | num (x : ℚ)
  | int (n : Int)
  | bool (b : Bool)
  | null
  | arr (elems : List JValue)
  | obj (fields : List (String × JValue))

/-- Modelled from the spec: the vulnerability-severity filter type
constant `policy.FilterTypeVulnerability` (package `models/policy` is
not under the analysed source; the spec's end-to-end scenario encodes
this variant as `"vulnerability"`). -/
def FilterTypeVulnerability : String := "vulnerability"

/-- Modelled from the spec: a Filter is "a `type` (enumerated) and a
`value` of variable shape depending on type" (`policy.Filter`, with
fields `Type` and `Value interface`). -/
structure Filter where
  type : String
  value : JValue

/-- Modelled from the spec: a Trigger is "a single structured object
describing activation conditions", reconstructed wholesale from its
serialized text and opaque beyond successful decode (`policy.Trigger`). -/
structure Trigger where
  kind : String
  settings : List (String × JValue)

/-- Modelled from the spec: the persisted Policy Schema entity
(`policy.Schema`, package `models/policy` is not under the analysed
source). `FiltersStr`/`TriggerStr` are the durable raw serialized
fields; `Filters`/`Trigger` are the derived transient views; the
`Description` field stands for the opaque pass-through
scheduling/target metadata. A Go `nil` filters slice is modelled by
the empty list, an absent trigger by `none`. -/
structure Schema where
  ID : Int
  Name : String
  ProjectID : Int
  Description : String
  FiltersStr : String
  Filters : List Filter
  TriggerStr : String
  Trigger : Option Trigger

/-- Failures reported by the external decode/parse collaborators:
an opaque `encoding/json` decode failure, or a `strconv` numeric
parse failure (invalid digits, i.e. Go's `ErrSyntax`, or out of the
requested bit range, i.e. Go's `ErrRange`) for the given numeral. -/
inductive RawErr where
  | jsonDecode (msg : String)
  | numInvalid (num : String)
  | numOutOfRange (num : String)

/-- Modelled from the spec: the error taxonomy of the `lib/errors`
collaborator (not under the analysed source). `invalidInput` — a
structurally invalid argument; `malformed` — raw serialized text
failed to decode or a value could not be coerced, with an optional
wrapping context message and the underlying cause; `store` — a
failure surfaced verbatim from the Store. -/
inductive PError where
  | invalidInput (msg : String)
  | malformed (context : Option String) (cause : RawErr)
  | store (msg : String)

/-- Modelled from the spec: the serialized-filter decoder, i.e.
`json.Unmarshal` into a sequence of Filter objects (the JSON codec is
an external collaborator; the spec treats the format as an opaque
textual encoding of an ordered sequence of filter objects). -/
abbrev FilterDecoder := String → Except RawErr (List Filter)

/-- Modelled from the spec: the serialized-trigger decoder, i.e.
`json.Unmarshal` into a single Trigger object. -/
abbrev TriggerDecoder := String → Except RawErr Trigger

/-- Numeric value of a decimal digit character. -/
def digitVal (c : Char) : Nat := c.toNat - 48

/-- Base-10 value of a digit string, most significant digit first. -/
def digitsVal (ds : List Char) : Nat :=
  ds.foldl (fun a c => a * 10 + digitVal c) 0

/-- Modelled from the spec: "parse it as a base-10 signed integer
(32-bit range)" — Go's `strconv.ParseInt(s, 10, 32)` (standard
library, outside this repository): an optional leading sign followed
by one or more decimal digits; the value must fit a signed 32-bit
integer, otherwise the range failure is reported (Go returns a
clamped value together with `ErrRange`; the caller only consumes the
failure). -/
def parseInt32 (s : String) : Except RawErr Int :=
  match s.data with
  | [] => Except.error (RawErr.numInvalid s)
  | c :: cs =>
    let ds := if c = '-' ∨ c = '+' then cs else c :: cs
    if ds = [] then Except.error (RawErr.numInvalid s)
    else if ds.all Char.isDigit then
      let u := digitsVal ds
      if c = '-' then
        if u ≤ 2 ^ 31 then Except.ok (-(u : Int))
        else Except.error (RawErr.numOutOfRange s)
      else
        if u < 2 ^ 31 then Except.ok (u : Int)
        else Except.error (RawErr.numOutOfRange s)
    else Except.error (RawErr.numInvalid s)

/-- Go's `(int)(f)` conversion of a `float64` truncates toward zero;
on the rational denoted by the float this is truncating division of
the numerator by the denominator. -/
def truncTowardZero (x : ℚ) : Int := x.num.tdiv x.den

/-- The severity coercion applied to one filter: the body of the
`for` loop of `parseFilters` (manager.go lines 171-184). Only a
filter whose `Type` is the vulnerability-severity variant is touched:
a string value is parsed with `strconv.ParseInt(_, 10, 32)` (failure
wrapped as "parse filters"), a float value is truncated to an
integer, and any other dynamic type falls through the `switch`
unchanged. -/
def convertFilter (f : Filter) : Except PError Filter :=
  if f.type = FilterTypeVulnerability then
    match f.value with
    | JValue.str s =>
      match parseInt32 s with
      | Except.error e => Except.error (PError.malformed (some "parse filters") e)
      | Except.ok sev => Except.ok { f with value := JValue.int sev }
    | JValue.num x => Except.ok { f with value := JValue.int (truncTowardZero x) }
    | _ => Except.ok f
  else Except.ok f

/-- The severity-coercion loop of `parseFilters`, run over the decoded
sequence in original order, stopping at the first failure. -/
def convertFilters : List Filter → Except PError (List Filter)
  | [] => Except.ok []
  | f :: rest =>
    match convertFilter f with
    | Except.error e => Except.error e
    | Except.ok f' =>
      match convertFilters rest with
      | Except.error e => Except.error e
      | Except.ok rest' => Except.ok (f' :: rest')

/-- `parseFilters` (manager.go lines 159-187): an empty raw string
yields a `nil` filter slice and no error; otherwise the raw text is
decoded (a decode failure is returned as is) and the severity
coercion runs over the decoded sequence. -/
def parseFilters (fdec : FilterDecoder) (filterStr : String) : Except PError (List Filter) :=
  if filterStr.length = 0 then Except.ok []
  else
    match fdec filterStr with
    | Except.error e => Except.error (PError.malformed none e)
    | Except.ok filters => convertFilters filters

/-- `parseTrigger` (manager.go lines 190-201): an empty raw string
yields a `nil` trigger and no error; otherwise the raw text is
decoded into a single Trigger (a decode failure is returned as is). -/
def parseTrigger (tdec : TriggerDecoder) (triggerStr : String) : Except PError (Option Trigger) :=
  if triggerStr.length = 0 then Except.ok none
  else
    match tdec triggerStr with
    | Except.error e => Except.error (PError.malformed none e)
    | Except.ok trigger => Except.ok (some trigger)

/-- `parsePolicy` (manager.go lines 136-156), the normalization pass:
a `nil` schema fails immediately; otherwise the raw filters text and
the raw trigger text are parsed and the derived `Filters` and
`Trigger` fields of the same schema are populated with the results. -/
def parsePolicy (fdec : FilterDecoder) (tdec : TriggerDecoder) (schema : Option Schema) :
    Except PError Schema :=
  match schema with
  | none => Except.error (PError.invalidInput "policy schema can not be nil")
  | some s =>
    match parseFilters fdec s.FiltersStr with
    | Except.error e => Except.error e
    | Except.ok filters =>
      match parseTrigger tdec s.TriggerStr with
      | Except.error e => Except.error e
      | Except.ok trigger => Except.ok { s with Filters := filters, Trigger := trigger }

/-- `manager.Get` (manager.go lines 78-85): fetch by id from the DAO
(modelled as a function parameter; a fetched `nil` pointer is `none`),
propagate its failure, otherwise normalize. -/
def Get (fdec : FilterDecoder) (tdec : TriggerDecoder)
    (daoGet : Int → Except PError (Option Schema)) (id : Int) : Except PError Schema :=
  match daoGet id with
  | Except.error e => Except.error e
  | Except.ok schema => parsePolicy fdec tdec schema

/-- `manager.GetByName` (manager.go lines 88-95): fetch by project and
name from the DAO, propagate its failure, otherwise normalize. -/
def GetByName (fdec : FilterDecoder) (tdec : TriggerDecoder)
    (daoGetByName : Int → String → Except PError (Option Schema))
    (projectID : Int) (name : String) : Except PError Schema :=
  match daoGetByName projectID name with
  | Except.error e => Except.error e
  | Except.ok schema => parsePolicy fdec tdec schema

/-- Modelled from the spec: the `q.Query` descriptor (package `lib/q`
is not under the analysed source) — pagination fields plus a mutable
keyword mapping (string key to value) used to inject scope
constraints; `none` models a Go `nil` map and the association list
models the map's entries. -/
structure Query where
  PageNumber : Int
  PageSize : Int
  Keywords : Option (List (String × JValue))

/-- Go map assignment `m[k] = v` on the association-list model:
replace the entry for `k` if present, otherwise add it. -/
def kwSet : List (String × JValue) → String → JValue → List (String × JValue)
  | [], k, v => [(k, v)]
  | (k', v') :: rest, k, v =>
    if k' = k then (k, v) :: rest else (k', v') :: kwSet rest k v

/-- Go map lookup `m[k]` on the association-list model. -/
def kwGet : List (String × JValue) → String → Option JValue
  | [], _ => none
  | (k', v) :: rest, k => if k' = k then some v else kwGet rest k

/-- The normalization loop of `ListPolicies` (manager.go lines
109-115): every element of the fetched page is normalized in order,
and the first failure aborts the whole call. -/
def parseAll (fdec : FilterDecoder) (tdec : TriggerDecoder) :
    List (Option Schema) → Except PError (List Schema)
  | [] => Except.ok []
  | s :: rest =>
    match parsePolicy fdec tdec s with
    | Except.error e => Except.error e
    | Except.ok s' =>
      match parseAll fdec tdec rest with
      | Except.error e => Except.error e
      | Except.ok rest' => Except.ok (s' :: rest')

/-- `manager.ListPolicies` (manager.go lines 103-118): fetch a page
from the DAO (modelled as a function parameter), propagate its
failure, otherwise normalize every element of the page. -/
def ListPolicies (fdec : FilterDecoder) (tdec : TriggerDecoder)
    (daoList : Option Query → Except PError (List (Option Schema)))
    (query : Option Query) : Except PError (List Schema) :=
  match daoList query with
  | Except.error e => Except.error e
  | Except.ok schemas => parseAll fdec tdec schemas

/-- The query preparation of `ListPoliciesByProject` (manager.go lines
122-130): a `nil` query is replaced by a fresh default query, a `nil`
keyword map is replaced by a fresh empty map, and the project id is
stored under `"project_id"`. The returned query is the caller's query
object after the in-place mutation. -/
def prepareProjectQuery (project : Int) (query : Option Query) : Query :=
  let q0 : Query :=
    match query with
    | none => { PageNumber := 0, PageSize := 0, Keywords := none }
    | some qy => qy
  let q1 : Query :=
    match q0.Keywords with
    | none => { q0 with Keywords := some [] }
    | some _ => q0
  { q1 with Keywords := some (kwSet (q1.Keywords.getD []) "project_id" (JValue.int project)) }

/-- `manager.ListPoliciesByProject` (manager.go lines 121-133):
prepare the query (default construction, map creation, project-id
injection) and delegate to `ListPolicies` with the prepared query. -/
def ListPoliciesByProject (fdec : FilterDecoder) (tdec : TriggerDecoder)
    (daoList : Option Query → Except PError (List (Option Schema)))
    (project : Int) (query : Option Query) : Except PError (List Schema) :=
  ListPolicies fdec tdec daoList (some (prepareProjectQuery project query))

/-- Canonical decimal digit characters of a natural number, most
significant first (used only to state completeness of `parseInt32`
over the 32-bit range). -/
def natDecDigits (n : Nat) : List Char :=
  (Nat.digits 10 n).reverse.map (fun d => Char.ofNat (48 + d))

/-- Canonical decimal string of a natural number. -/
def natDecString (n : Nat) : String :=
  if n = 0 then "0" else String.mk (natDecDigits n)

/-- Canonical decimal string of an integer (leading `-` when
negative). -/
def intDecString (n : Int) : String :=
  if n < 0 then "-" ++ natDecString n.natAbs else natDecString n.natAbs

/-- Specification predicate for the severity coercion, following the
spec's words: a filter of any other type is left unchanged; on the
vulnerability-severity variant a string value is replaced by its
parsed base-10 integer, a float value is truncated to an integer, and
any other value representation is left unchanged. -/
def coerces (f f' : Filter) : Prop :=
  (f.type ≠ FilterTypeVulnerability → f' = f) ∧
  (f.type = FilterTypeVulnerability →
    ((∃ s n, f.value = JValue.str s ∧ parseInt32 s = Except.ok n ∧
        f' = { f with value := JValue.int n }) ∨
     (∃ x, f.value = JValue.num x ∧
        f' = { f with value := JValue.int (truncTowardZero x) }) ∨
     ((∀ s, f.value ≠ JValue.str s) ∧ (∀ x, f.value ≠ JValue.num x) ∧ f' = f)))

/-! Helper lemmas: computation rules and inversions for the embedded
functions, shared by the claim theorems. -/

theorem truncTowardZero_of_nonneg (x : ℚ) (h : 0 ≤ x) : truncTowardZero x = ⌊x⌋ := by
  unfold truncTowardZero
  rw [Int.tdiv_eq_ediv (Rat.num_nonneg.mpr h) (Int.natCast_nonneg x.den), Rat.floor_def]

theorem truncTowardZero_neg (x : ℚ) : truncTowardZero (-x) = -truncTowardZero x := by
  unfold truncTowardZero
  rw [Rat.neg_num, Rat.neg_den, Int.neg_tdiv]

theorem truncTowardZero_of_neg (x : ℚ) (h : x < 0) : truncTowardZero x = -⌊-x⌋ := by
  have h' : (0 : ℚ) ≤ -x := by linarith
  rw [← neg_neg (truncTowardZero x), ← truncTowardZero_neg x, truncTowardZero_of_nonneg _ h']

theorem q79_eq : (79 : ℚ) / 10 = mkRat 79 10 := by
  rw [Rat.mkRat_eq_divInt, Rat.divInt_eq_div]; norm_num

theorem qneg79_eq : (-79 : ℚ) / 10 = mkRat (-79) 10 := by
  rw [Rat.mkRat_eq_divInt, Rat.divInt_eq_div]; norm_num

theorem convertFilter_nonvuln {f : Filter} (hT : f.type ≠ FilterTypeVulnerability) :
    convertFilter f = Except.ok f := by
  simp [convertFilter, hT]

theorem convertFilter_vuln_str_ok {f : Filter} {s : String} {n : Int}
    (hT : f.type = FilterTypeVulnerability) (hv : f.value = JValue.str s)
    (hp : parseInt32 s = Except.ok n) :
    convertFilter f = Except.ok { f with value := JValue.int n } := by
  simp [convertFilter, hT, hv, hp]

theorem convertFilter_vuln_str_err {f : Filter} {s : String} {e : RawErr}
    (hT : f.type = FilterTypeVulnerability) (hv : f.value = JValue.str s)
    (hp : parseInt32 s = Except.error e) :
    convertFilter f = Except.error (PError.malformed (some "parse filters") e) := by
  simp [convertFilter, hT, hv, hp]

theorem convertFilter_vuln_num {f : Filter} {x : ℚ}
    (hT : f.type = FilterTypeVulnerability) (hv : f.value = JValue.num x) :
    convertFilter f = Except.ok { f with value := JValue.int (truncTowardZero x) } := by
  simp [convertFilter, hT, hv]

theorem convertFilter_vuln_other {f : Filter}
    (hs : ∀ s, f.value ≠ JValue.str s) (hx : ∀ x, f.value ≠ JValue.num x) :
    convertFilter f = Except.ok f := by
  by_cases hT : f.type = FilterTypeVulnerability
  · cases hv : f.value with
    | str s => exact absurd hv (hs s)
    | num x => exact absurd hv (hx x)
    | int n => simp [convertFilter, hT, hv]
    | bool b => simp [convertFilter, hT, hv]
    | null => simp [convertFilter, hT, hv]
    | arr elems => simp [convertFilter, hT, hv]
    | obj fields => simp [convertFilter, hT, hv]
  · exact convertFilter_nonvuln hT

theorem convertFilter_ok_coerces {f f' : Filter}
    (h : convertFilter f = Except.ok f') : coerces f f' := by
  by_cases hT : f.type = FilterTypeVulnerability
  · refine ⟨fun hc => absurd hT hc, fun _ => ?_⟩
    cases hv : f.value with
    | str s =>
      cases hp : parseInt32 s with
      | error e => rw [convertFilter_vuln_str_err hT hv hp] at h; exact absurd h (by simp)
      | ok n =>
        rw [convertFilter_vuln_str_ok hT hv hp] at h
        exact Or.inl ⟨s, n, rfl, hp, (Except.ok.injEq _ _).mp h |>.symm⟩
    | num x =>
      rw [convertFilter_vuln_num hT hv] at h
      exact Or.inr (Or.inl ⟨x, rfl, (Except.ok.injEq _ _).mp h |>.symm⟩)
    | int n =>
      rw [convertFilter_vuln_other (by simp [hv]) (by simp [hv])] at h
      exact Or.inr (Or.inr ⟨by simp [hv], by simp [hv], (Except.ok.injEq _ _).mp h |>.symm⟩)
    | bool b =>
      rw [convertFilter_vuln_other (by simp [hv]) (by simp [hv])] at h
      exact Or.inr (Or.inr ⟨by simp [hv], by simp [hv], (Except.ok.injEq _ _).mp h |>.symm⟩)
    | null =>
      rw [convertFilter_vuln_other (by simp [hv]) (by simp [hv])] at h
      exact Or.inr (Or.inr ⟨by simp [hv], by simp [hv], (Except.ok.injEq _ _).mp h |>.symm⟩)
    | arr elems =>
      rw [convertFilter_vuln_other (by simp [hv]) (by simp [hv])] at h
      exact Or.inr (Or.inr ⟨by simp [hv], by simp [hv], (Except.ok.injEq _ _).mp h |>.symm⟩)
    | obj fields =>
      rw [convertFilter_vuln_other (by simp [hv]) (by simp [hv])] at h
      exact Or.inr (Or.inr ⟨by simp [hv], by simp [hv], (Except.ok.injEq _ _).mp h |>.symm⟩)
  · rw [convertFilter_nonvuln hT] at h
    exact ⟨fun _ => ((Except.ok.injEq _ _).mp h).symm, fun hc => absurd hc hT⟩

theorem convertFilters_ok_cons {f : Filter} {rest out : List Filter}
    (h : convertFilters (f :: rest) = Except.ok out) :
    ∃ f' rest', convertFilter f = Except.ok f' ∧ convertFilters rest = Except.ok rest' ∧
      out = f' :: rest' := by
  cases hf : convertFilter f with
  | error e => rw [convertFilters, hf] at h; exact absurd h (by simp)
  | ok f' =>
    cases hr : convertFilters rest with
    | error e => rw [convertFilters, hf, hr] at h; exact absurd h (by simp)
    | ok rest' =>
      rw [convertFilters, hf, hr] at h
      exact ⟨f', rest', rfl, rfl, ((Except.ok.injEq _ _).mp h).symm⟩

theorem convertFilters_ok_forall₂ {fs fs' : List Filter}
    (h : convertFilters fs = Except.ok fs') :
    List.Forall₂ (fun f f' => convertFilter f = Except.ok f') fs fs' := by
  induction fs generalizing fs' with
  | nil =>
    rw [convertFilters] at h
    obtain rfl : ([] : List Filter) = fs' := (Except.ok.injEq _ _).mp h
    exact List.Forall₂.nil
  | cons f rest ih =>
    obtain ⟨f', rest', hf, hr, rfl⟩ := convertFilters_ok_cons h
    exact List.Forall₂.cons hf (ih hr)

theorem forall₂_get {α β : Type} {R : α → β → Prop} :
    ∀ {l₁ : List α} {l₂ : List β}, List.Forall₂ R l₁ l₂ →
      ∀ i (h₁ : i < l₁.length) (h₂ : i < l₂.length), R (l₁.get ⟨i, h₁⟩) (l₂.get ⟨i, h₂⟩) := by
  intro l₁ l₂ h
  induction h with
  | nil => intro i h₁ _; exact absurd h₁ (by simp)
  | cons hR _ ih =>
    intro i h₁ h₂
    cases i with
    | zero => exact hR
    | succ j => exact ih j (Nat.lt_of_succ_lt_succ h₁) (Nat.lt_of_succ_lt_succ h₂)

theorem parseFilters_decode_err {fdec : FilterDecoder} {raw : String} {e : RawErr}
    (h : raw.length ≠ 0) (hd : fdec raw = Except.error e) :
    parseFilters fdec raw = Except.error (PError.malformed none e) := by
  simp [parseFilters, h, hd]

theorem parseFilters_decode_ok {fdec : FilterDecoder} {raw : String} {fs : List Filter}
    (h : raw.length ≠ 0) (hd : fdec raw = Except.ok fs) :
    parseFilters fdec raw = convertFilters fs := by
  simp [parseFilters, h, hd]

theorem parseTrigger_decode_err {tdec : TriggerDecoder} {raw : String} {e : RawErr}
    (h : raw.length ≠ 0) (hd : tdec raw = Except.error e) :
    parseTrigger tdec raw = Except.error (PError.malformed none e) := by
  simp [parseTrigger, h, hd]

theorem parsePolicy_filters_err {fdec : FilterDecoder} {tdec : TriggerDecoder}
    {s : Schema} {e : PError} (hf : parseFilters fdec s.FiltersStr = Except.error e) :
    parsePolicy fdec tdec (some s) = Except.error e := by
  simp [parsePolicy, hf]

theorem parsePolicy_trigger_err {fdec : FilterDecoder} {tdec : TriggerDecoder}
    {s : Schema} {fl : List Filter} {e : PError}
    (hf : parseFilters fdec s.FiltersStr = Except.ok fl)
    (ht : parseTrigger tdec s.TriggerStr = Except.error e) :
    parsePolicy fdec tdec (some s) = Except.error e := by
  simp [parsePolicy, hf, ht]

theorem parsePolicy_ok_of {fdec : FilterDecoder} {tdec : TriggerDecoder}
    {s : Schema} {fl : List Filter} {tr : Option Trigger}
    (hf : parseFilters fdec s.FiltersStr = Except.ok fl)
    (ht : parseTrigger tdec s.TriggerStr = Except.ok tr) :
    parsePolicy fdec tdec (some s) = Except.ok { s with Filters := fl, Trigger := tr } := by
  simp [parsePolicy, hf, ht]

theorem parsePolicy_ok_inv {fdec : FilterDecoder} {tdec : TriggerDecoder}
    {s r : Schema} (h : parsePolicy fdec tdec (some s) = Except.ok r) :
    ∃ fl tr, parseFilters fdec s.FiltersStr = Except.ok fl ∧
      parseTrigger tdec s.TriggerStr = Except.ok tr ∧
      r = { s with Filters := fl, Trigger := tr } := by
  cases hf : parseFilters fdec s.FiltersStr with
  | error e => rw [parsePolicy_filters_err hf] at h; exact absurd h (by simp)
  | ok fl =>
    cases ht : parseTrigger tdec s.TriggerStr with
    | error e => rw [parsePolicy_trigger_err hf ht] at h; exact absurd h (by simp)
    | ok tr =>
      rw [parsePolicy_ok_of hf ht] at h
      exact ⟨fl, tr, rfl, rfl, ((Except.ok.injEq _ _).mp h).symm⟩

/-! Theorems settling the claims. -/

/-- C3: for a nil schema reference, the normalization pass
`parsePolicy` always fails with the `InvalidInput` error whose
message is "policy schema can not be nil"; as a total Lean function
it returns this value and cannot panic. -/
theorem nil_schema_invalid_input (fdec : FilterDecoder) (tdec : TriggerDecoder) :
    parsePolicy fdec tdec none =
      Except.error (PError.invalidInput "policy schema can not be nil") := rfl

/-- Witness for C3 at concrete decoders. -/
theorem nil_schema_invalid_input_witness :
    parsePolicy (fun _ => Except.ok []) (fun _ => Except.ok ⟨"manual", []⟩) none =
      Except.error (PError.invalidInput "policy schema can not be nil") :=
  nil_schema_invalid_input (fun _ => Except.ok []) (fun _ => Except.ok ⟨"manual", []⟩)

/-- C5: for a schema whose raw filters text and raw trigger text are
both empty, the normalization pass succeeds for every decoder pair,
with an empty (`nil`) filters sequence and an absent trigger. -/
theorem empty_raw_normalizes (fdec : FilterDecoder) (tdec : TriggerDecoder)
    (s : Schema) (hf : s.FiltersStr = "") (ht : s.TriggerStr = "") :
    parsePolicy fdec tdec (some s) = Except.ok { s with Filters := [], Trigger := none } := by
  have hf' : parseFilters fdec s.FiltersStr = Except.ok [] := by
    rw [hf]; rfl
  have ht' : parseTrigger tdec s.TriggerStr = Except.ok none := by
    rw [ht]; rfl
  exact parsePolicy_ok_of hf' ht'

/-- Witness for C5 at a concrete schema with empty raw fields. -/
theorem empty_raw_normalizes_witness :
    parsePolicy (fun _ => Except.error (RawErr.jsonDecode "boom"))
        (fun _ => Except.error (RawErr.jsonDecode "boom"))
        (some ⟨1, "p", 2, "meta", "", [], "", none⟩) =
      Except.ok ⟨1, "p", 2, "meta", "", [], "", none⟩ :=
  empty_raw_normalizes (fun _ => Except.error (RawErr.jsonDecode "boom"))
    (fun _ => Except.error (RawErr.jsonDecode "boom"))
    ⟨1, "p", 2, "meta", "", [], "", none⟩ rfl rfl

/-- C9: on success the normalization pass returns the input schema
with only the derived `Filters` and `Trigger` fields rewritten (to
the parse results of the raw fields); `FiltersStr`, `TriggerStr` and
every other field are unchanged. -/
theorem parse_policy_frame (fdec : FilterDecoder) (tdec : TriggerDecoder)
    (s r : Schema) (h : parsePolicy fdec tdec (some s) = Except.ok r) :
    r = { s with Filters := r.Filters, Trigger := r.Trigger } ∧
    r.ID = s.ID ∧ r.Name = s.Name ∧ r.ProjectID = s.ProjectID ∧
    r.Description = s.Description ∧
    r.FiltersStr = s.FiltersStr ∧ r.TriggerStr = s.TriggerStr ∧
    parseFilters fdec s.FiltersStr = Except.ok r.Filters ∧
    parseTrigger tdec s.TriggerStr = Except.ok r.Trigger := by
  obtain ⟨fl, tr, hf, ht, rfl⟩ := parsePolicy_ok_inv h
  exact ⟨rfl, rfl, rfl, rfl, rfl, rfl, rfl, hf, ht⟩

/-- Witness for C9 at a concrete schema and decoders. -/
theorem parse_policy_frame_witness :
    (⟨1, "p", 2, "meta", "raw", [⟨"repository", JValue.str "a"⟩], "traw",
        some ⟨"manual", []⟩⟩ : Schema) =
      { (⟨1, "p", 2, "meta", "raw", [], "traw", none⟩ : Schema) with
          Filters := [⟨"repository", JValue.str "a"⟩], Trigger := some ⟨"manual", []⟩ } ∧
    (1 : Int) = 1 ∧ "p" = "p" ∧ (2 : Int) = 2 ∧ "meta" = "meta" ∧
    "raw" = "raw" ∧ "traw" = "traw" ∧
    parseFilters (fun _ => Except.ok [⟨"repository", JValue.str "a"⟩]) "raw" =
      Except.ok [⟨"repository", JValue.str "a"⟩] ∧
    parseTrigger (fun _ => Except.ok ⟨"manual", []⟩) "traw" =
      Except.ok (some ⟨"manual", []⟩) :=
  parse_policy_frame (fun _ => Except.ok [⟨"repository", JValue.str "a"⟩])
    (fun _ => Except.ok ⟨"manual", []⟩)
    ⟨1, "p", 2, "meta", "raw", [], "traw", none⟩
    ⟨1, "p", 2, "meta", "raw", [⟨"repository", JValue.str "a"⟩], "traw", some ⟨"manual", []⟩⟩
    (by rfl)

theorem coerces_type {f f' : Filter} (hc : coerces f f') : f'.type = f.type := by
  by_cases hT : f.type = FilterTypeVulnerability
  · rcases hc.2 hT with ⟨s, n, _, _, rfl⟩ | ⟨x, _, rfl⟩ | ⟨_, _, rfl⟩ <;> rfl
  · rw [hc.1 hT]

theorem coerces_int {f f' : Filter} (hc : coerces f f')
    (hT : f.type = FilterTypeVulnerability)
    (hv : (∃ s, f.value = JValue.str s) ∨ (∃ x, f.value = JValue.num x)) :
    ∃ n : Int, f'.value = JValue.int n := by
  rcases hc.2 hT with ⟨s, n, _, _, rfl⟩ | ⟨x, _, rfl⟩ | ⟨hs, hx, rfl⟩
  · exact ⟨n, rfl⟩
  · exact ⟨truncTowardZero x, rfl⟩
  · rcases hv with ⟨s, hv⟩ | ⟨x, hv⟩
    · exact absurd hv (hs s)
    · exact absurd hv (hx x)

/-- C1: on every decoded filter sequence the severity coercion of
`parseFilters` relates input to output pointwise by `coerces` — it
touches exactly the filters of the vulnerability-severity type,
replacing a string value by its parsed base-10 integer and truncating
a float value, every other value and every other filter type being
left unchanged; `parseFilters` runs exactly this coercion on what the
decoder returns; and concretely the string "7" and the float 7.9 both
normalize to the integer 7. -/
theorem severity_coercion_exact (fs fs' : List Filter)
    (h : convertFilters fs = Except.ok fs') :
    List.Forall₂ coerces fs fs' ∧
    (∀ (fdec : FilterDecoder) (raw : String), raw.length ≠ 0 → fdec raw = Except.ok fs →
      parseFilters fdec raw = convertFilters fs) ∧
    convertFilters [⟨FilterTypeVulnerability, JValue.str "7"⟩,
        ⟨FilterTypeVulnerability, JValue.num ((79 : ℚ) / 10)⟩] =
      Except.ok [⟨FilterTypeVulnerability, JValue.int 7⟩,
        ⟨FilterTypeVulnerability, JValue.int 7⟩] := by
  refine ⟨List.Forall₂.imp (fun a b hab => convertFilter_ok_coerces hab)
      (convertFilters_ok_forall₂ h), ?_, ?_⟩
  · intro fdec raw hraw hdec
    exact parseFilters_decode_ok hraw hdec
  · rw [q79_eq]; rfl

/-- Witness for C1: the coercion relation at a concrete two-filter
sequence (one vulnerability-severity filter, one filter of another
type). -/
theorem severity_coercion_exact_witness :
    List.Forall₂ coerces
      [⟨FilterTypeVulnerability, JValue.str "7"⟩, ⟨"repository", JValue.str "library"⟩]
      [⟨FilterTypeVulnerability, JValue.int 7⟩, ⟨"repository", JValue.str "library"⟩] :=
  (severity_coercion_exact
    [⟨FilterTypeVulnerability, JValue.str "7"⟩, ⟨"repository", JValue.str "library"⟩]
    [⟨FilterTypeVulnerability, JValue.int 7⟩, ⟨"repository", JValue.str "library"⟩]
    (by rfl)).1

/-- C8: the normalization of a decoded filter sequence is
representation-stable — the output has the same length, the filter at
each position keeps its `type` (and every field, when the type is not
vulnerability-severity), order is preserved positionally, and a
vulnerability-severity filter whose decoded value was a string or a
float carries an integer value afterwards; concretely both the
encoding "7" (string) and 7.9 (float) normalize to the integer 7.
Stability of the re-encoding follows since the encoder is a function
of these preserved fields. -/
theorem representation_stability (fs fs' : List Filter)
    (h : convertFilters fs = Except.ok fs') :
    fs'.length = fs.length ∧
    (∀ i (hi : i < fs.length) (hi' : i < fs'.length),
      (fs'.get ⟨i, hi'⟩).type = (fs.get ⟨i, hi⟩).type) ∧
    (∀ i (hi : i < fs.length) (hi' : i < fs'.length),
      (fs.get ⟨i, hi⟩).type ≠ FilterTypeVulnerability →
      fs'.get ⟨i, hi'⟩ = fs.get ⟨i, hi⟩) ∧
    (∀ i (hi : i < fs.length) (hi' : i < fs'.length),
      (fs.get ⟨i, hi⟩).type = FilterTypeVulnerability →
      ((∃ s, (fs.get ⟨i, hi⟩).value = JValue.str s) ∨
       (∃ x, (fs.get ⟨i, hi⟩).value = JValue.num x)) →
      ∃ n : Int, (fs'.get ⟨i, hi'⟩).value = JValue.int n) ∧
    convertFilters [⟨FilterTypeVulnerability, JValue.str "7"⟩] =
      Except.ok [⟨FilterTypeVulnerability, JValue.int 7⟩] ∧
    convertFilters [⟨FilterTypeVulnerability, JValue.num ((79 : ℚ) / 10)⟩] =
      Except.ok [⟨FilterTypeVulnerability, JValue.int 7⟩] := by
  have hF := convertFilters_ok_forall₂ h
  have hget := fun i hi hi' =>
    convertFilter_ok_coerces (forall₂_get hF i hi hi')
  refine ⟨hF.length_eq.symm, ?_, ?_, ?_, by rfl, by rw [q79_eq]; rfl⟩
  · intro i hi hi'
    exact coerces_type (hget i hi hi')
  · intro i hi hi' hT
    exact (hget i hi hi').1 hT
  · intro i hi hi' hT hv
    exact coerces_int (hget i hi hi') hT hv

/-- Witness for C8: stability at a concrete singleton sequence. -/
theorem representation_stability_witness :
    ([⟨FilterTypeVulnerability, JValue.int 7⟩] : List Filter).length =
      ([⟨FilterTypeVulnerability, JValue.str "7"⟩] : List Filter).length :=
  (representation_stability [⟨FilterTypeVulnerability, JValue.str "7"⟩]
    [⟨FilterTypeVulnerability, JValue.int 7⟩] (by rfl)).1

/-- C2: whenever a non-empty raw filters text fails to decode, the
normalization pass — and with it `Get`, `GetByName` and
`ListPolicies` over a Store returning that schema — fails with the
`Malformed` error carrying the decode error; whenever a non-empty raw
trigger text fails to decode, the pass never succeeds, and fails with
the `Malformed` error carrying the decode error as soon as the
filters side parses. -/
theorem decode_failure_malformed (fdec : FilterDecoder) (tdec : TriggerDecoder)
    (s : Schema) (e : RawErr) :
    (s.FiltersStr.length ≠ 0 → fdec s.FiltersStr = Except.error e →
      parsePolicy fdec tdec (some s) = Except.error (PError.malformed none e) ∧
      Get fdec tdec (fun _ => Except.ok (some s)) s.ID =
        Except.error (PError.malformed none e) ∧
      GetByName fdec tdec (fun _ _ => Except.ok (some s)) s.ProjectID s.Name =
        Except.error (PError.malformed none e) ∧
      ListPolicies fdec tdec (fun _ => Except.ok [some s]) none =
        Except.error (PError.malformed none e)) ∧
    (s.TriggerStr.length ≠ 0 → tdec s.TriggerStr = Except.error e →
      (∀ r, parsePolicy fdec tdec (some s) ≠ Except.ok r) ∧
      (∀ fl, parseFilters fdec s.FiltersStr = Except.ok fl →
        parsePolicy fdec tdec (some s) = Except.error (PError.malformed none e))) := by
  constructor
  · intro hlen hdec
    have hpf := parseFilters_decode_err hlen hdec
    have hpp : parsePolicy fdec tdec (some s) = Except.error (PError.malformed none e) :=
      parsePolicy_filters_err hpf
    refine ⟨hpp, ?_, ?_, ?_⟩
    · show parsePolicy fdec tdec (some s) = _
      exact hpp
    · show parsePolicy fdec tdec (some s) = _
      exact hpp
    · show parseAll fdec tdec [some s] = _
      rw [parseAll, hpp]
  · intro hlen hdec
    have htr := parseTrigger_decode_err hlen hdec
    constructor
    · intro r hok
      obtain ⟨fl, tr, _, ht, _⟩ := parsePolicy_ok_inv hok
      rw [htr] at ht
      exact absurd ht (by simp)
    · intro fl hf
      exact parsePolicy_trigger_err hf htr

/-- Witness for C2: a schema with truncated filter text and a decoder
that rejects it; `Get` reports the `Malformed` failure. -/
theorem decode_failure_malformed_witness :
    Get (fun _ => Except.error (RawErr.jsonDecode "unexpected end of JSON input"))
        (fun _ => Except.ok ⟨"manual", []⟩)
        (fun _ => Except.ok (some ⟨1, "p", 2, "m", "[", [], "", none⟩)) 1 =
      Except.error (PError.malformed none (RawErr.jsonDecode "unexpected end of JSON input")) :=
  ((decode_failure_malformed
    (fun _ => Except.error (RawErr.jsonDecode "unexpected end of JSON input"))
    (fun _ => Except.ok ⟨"manual", []⟩)
    ⟨1, "p", 2, "m", "[", [], "", none⟩
    (RawErr.jsonDecode "unexpected end of JSON input")).1 (by decide) (by rfl)).2.1

theorem parseAll_ok_cons {fdec : FilterDecoder} {tdec : TriggerDecoder}
    {s : Option Schema} {rest : List (Option Schema)} {out : List Schema}
    (h : parseAll fdec tdec (s :: rest) = Except.ok out) :
    ∃ s' rest', parsePolicy fdec tdec s = Except.ok s' ∧
      parseAll fdec tdec rest = Except.ok rest' ∧ out = s' :: rest' := by
  cases hs : parsePolicy fdec tdec s with
  | error e => rw [parseAll, hs] at h; exact absurd h (by simp)
  | ok s' =>
    cases hr : parseAll fdec tdec rest with
    | error e => rw [parseAll, hs, hr] at h; exact absurd h (by simp)
    | ok rest' =>
      rw [parseAll, hs, hr] at h
      exact ⟨s', rest', rfl, rfl, ((Except.ok.injEq _ _).mp h).symm⟩

theorem parseAll_forall₂ {fdec : FilterDecoder} {tdec : TriggerDecoder} :
    ∀ {l : List (Option Schema)} {out : List Schema},
      parseAll fdec tdec l = Except.ok out →
      List.Forall₂ (fun os s => parsePolicy fdec tdec os = Except.ok s) l out := by
  intro l
  induction l with
  | nil =>
    intro out h
    rw [parseAll] at h
    obtain rfl : ([] : List Schema) = out := (Except.ok.injEq _ _).mp h
    exact List.Forall₂.nil
  | cons hd tl ih =>
    intro out h
    obtain ⟨s', rest', hs, hr, rfl⟩ := parseAll_ok_cons h
    exact List.Forall₂.cons hs (ih hr)

theorem parseAll_error_of_mem {fdec : FilterDecoder} {tdec : TriggerDecoder}
    {os : Option Schema} {e : PError} :
    ∀ {l : List (Option Schema)}, os ∈ l → parsePolicy fdec tdec os = Except.error e →
      ∃ e', parseAll fdec tdec l = Except.error e' := by
  intro l
  induction l with
  | nil => intro hmem; cases hmem
  | cons hd tl ih =>
    intro hmem he
    cases hp : parsePolicy fdec tdec hd with
    | error e' => exact ⟨e', by rw [parseAll, hp]⟩
    | ok s' =>
      rcases List.mem_cons.mp hmem with rfl | hmem'
      · rw [hp] at he; exact absurd he (by simp)
      · obtain ⟨e', htl⟩ := ih hmem' he
        exact ⟨e', by rw [parseAll, hp, htl]⟩

theorem parseAll_ok_of_all {fdec : FilterDecoder} {tdec : TriggerDecoder} :
    ∀ {l : List (Option Schema)},
      (∀ os ∈ l, ∃ s, parsePolicy fdec tdec os = Except.ok s) →
      ∃ out, parseAll fdec tdec l = Except.ok out := by
  intro l
  induction l with
  | nil => intro _; exact ⟨[], rfl⟩
  | cons hd tl ih =>
    intro hall
    obtain ⟨s', hs⟩ := hall hd (List.mem_cons_self hd tl)
    obtain ⟨out, hout⟩ := ih (fun os hos => hall os (List.mem_cons_of_mem hd hos))
    exact ⟨s' :: out, by rw [parseAll, hs, hout]⟩

theorem ListPolicies_eq_parseAll {fdec : FilterDecoder} {tdec : TriggerDecoder}
    {daoList : Option Query → Except PError (List (Option Schema))}
    {qy : Option Query} {page : List (Option Schema)}
    (h : daoList qy = Except.ok page) :
    ListPolicies fdec tdec daoList qy = parseAll fdec tdec page := by
  simp [ListPolicies, h]

/-- C4: over any page the Store returns, if the normalization of some
element fails then `ListPolicies` returns an error (and, being an
`Except`, no list at all); if every element normalizes,
`ListPolicies` returns the full normalized page, and any returned
page is exactly the elementwise normalization — never a partial
mix. -/
theorem list_policies_atomic (fdec : FilterDecoder) (tdec : TriggerDecoder)
    (daoList : Option Query → Except PError (List (Option Schema)))
    (qy : Option Query) (page : List (Option Schema))
    (h : daoList qy = Except.ok page) :
    ((∃ os ∈ page, ∃ e, parsePolicy fdec tdec os = Except.error e) →
      ∃ e, ListPolicies fdec tdec daoList qy = Except.error e) ∧
    ((∀ os ∈ page, ∃ s, parsePolicy fdec tdec os = Except.ok s) →
      ∃ out, ListPolicies fdec tdec daoList qy = Except.ok out ∧
        List.Forall₂ (fun os s => parsePolicy fdec tdec os = Except.ok s) page out) ∧
    (∀ out, ListPolicies fdec tdec daoList qy = Except.ok out →
      List.Forall₂ (fun os s => parsePolicy fdec tdec os = Except.ok s) page out) := by
  have hLP : ListPolicies fdec tdec daoList qy = parseAll fdec tdec page :=
    ListPolicies_eq_parseAll h
  refine ⟨?_, ?_, ?_⟩
  · rintro ⟨os, hmem, e, he⟩
    obtain ⟨e', h'⟩ := parseAll_error_of_mem hmem he
    exact ⟨e', by rw [hLP, h']⟩
  · intro hall
    obtain ⟨out, hout⟩ := parseAll_ok_of_all hall
    exact ⟨out, by rw [hLP, hout], parseAll_forall₂ hout⟩
  · intro out hout
    rw [hLP] at hout
    exact parseAll_forall₂ hout

/-- Witness for C4: a page containing a nil schema makes the whole
call fail. -/
theorem list_policies_atomic_witness :
    ∃ e, ListPolicies (fun _ => Except.ok []) (fun _ => Except.ok ⟨"manual", []⟩)
      (fun _ => Except.ok [none]) none = Except.error e :=
  (list_policies_atomic (fun _ => Except.ok []) (fun _ => Except.ok ⟨"manual", []⟩)
    (fun _ => Except.ok [none]) none [none] (by rfl)).1
    ⟨none, by simp, PError.invalidInput "policy schema can not be nil", by rfl⟩

theorem kwGet_kwSet_same (m : List (String × JValue)) (k : String) (v : JValue) :
    kwGet (kwSet m k v) k = some v := by
  induction m with
  | nil => simp [kwSet, kwGet]
  | cons p rest ih =>
    obtain ⟨k', v'⟩ := p
    by_cases hk : k' = k
    · subst hk; simp [kwSet, kwGet]
    · simp [kwSet, kwGet, hk, ih]

theorem kwGet_kwSet_other (m : List (String × JValue)) (k q : String) (v : JValue)
    (h : q ≠ k) : kwGet (kwSet m k v) q = kwGet m q := by
  induction m with
  | nil => simp [kwSet, kwGet, Ne.symm h]
  | cons p rest ih =>
    obtain ⟨k', v'⟩ := p
    by_cases hk : k' = k
    · subst hk
      simp [kwSet, kwGet, Ne.symm h]
    · by_cases hq : k' = q
      · subst hq; simp [kwSet, kwGet, hk]
      · simp [kwSet, kwGet, hk, hq, ih]

/-- C6: `ListPoliciesByProject` prepares its query by constructing a
default query when given none, creating the keyword map when absent,
and storing the project id under "project_id": after a nil or
keywordless or empty-keyword-map query the map holds exactly that
single entry; for any caller-supplied query the pagination fields and
every other keyword entry survive unchanged (the functional rendering
of the documented in-place mutation) while "project_id" maps to the
project; and the call delegates to `ListPolicies` with exactly the
mutated query. -/
theorem project_query_injection (project : Int) (qy : Query) :
    (prepareProjectQuery project none =
      { PageNumber := 0, PageSize := 0,
        Keywords := some [("project_id", JValue.int project)] }) ∧
    ((prepareProjectQuery project (some { qy with Keywords := none })).Keywords =
      some [("project_id", JValue.int project)]) ∧
    ((prepareProjectQuery project (some { qy with Keywords := some [] })).Keywords =
      some [("project_id", JValue.int project)]) ∧
    ((prepareProjectQuery project (some qy)).PageNumber = qy.PageNumber ∧
     (prepareProjectQuery project (some qy)).PageSize = qy.PageSize) ∧
    (kwGet ((prepareProjectQuery project (some qy)).Keywords.getD []) "project_id" =
      some (JValue.int project)) ∧
    (∀ k, k ≠ "project_id" →
      kwGet ((prepareProjectQuery project (some qy)).Keywords.getD []) k =
        kwGet (qy.Keywords.getD []) k) ∧
    (∀ (fdec : FilterDecoder) (tdec : TriggerDecoder) daoList,
      ListPoliciesByProject fdec tdec daoList project (some qy) =
        ListPolicies fdec tdec daoList (some (prepareProjectQuery project (some qy)))) := by
  refine ⟨rfl, rfl, rfl, ?_, ?_, ?_, fun _ _ _ => rfl⟩
  · cases hK : qy.Keywords <;> simp [prepareProjectQuery, hK]
  · cases hK : qy.Keywords with
    | none => simp [prepareProjectQuery, hK, kwGet_kwSet_same]
    | some m => simp [prepareProjectQuery, hK, kwGet_kwSet_same]
  · intro k hk
    cases hK : qy.Keywords with
    | none => simp [prepareProjectQuery, hK, kwGet_kwSet_other _ _ _ _ hk]
    | some m => simp [prepareProjectQuery, hK, kwGet_kwSet_other _ _ _ _ hk]

/-- Witness for C6: the prepared query for a nil input query at a
concrete project id. -/
theorem project_query_injection_witness :
    prepareProjectQuery 42 none =
      { PageNumber := 0, PageSize := 0,
        Keywords := some [("project_id", JValue.int 42)] } :=
  (project_query_injection 42 ⟨3, 5, none⟩).1

/-- C7: for a decoded vulnerability-severity filter carrying a string
value, `parseFilters` fails with the `Malformed` error wrapping the
parse error under the context "parse filters" exactly when the string
does not parse as a base-10 signed integer in 32-bit range; when it
parses, the value is replaced by the parsed integer and the coercion
continues over the rest of the sequence. -/
theorem severity_string_parse (fdec : FilterDecoder) (raw sv : String)
    (f : Filter) (rest : List Filter)
    (hraw : raw.length ≠ 0) (hdec : fdec raw = Except.ok (f :: rest))
    (hT : f.type = FilterTypeVulnerability) (hV : f.value = JValue.str sv) :
    (∀ e, parseInt32 sv = Except.error e →
      parseFilters fdec raw = Except.error (PError.malformed (some "parse filters") e)) ∧
    (∀ n, parseInt32 sv = Except.ok n →
      parseFilters fdec raw =
        (convertFilters rest).map (fun rest' => { f with value := JValue.int n } :: rest')) := by
  have hpf := parseFilters_decode_ok hraw hdec
  constructor
  · intro e hp
    rw [hpf, convertFilters, convertFilter_vuln_str_err hT hV hp]
  · intro n hp
    rw [hpf, convertFilters, convertFilter_vuln_str_ok hT hV hp]
    cases hr : convertFilters rest <;> simp [Except.map, hr]

/-- Witness for C7: a non-numeric severity string fails as Malformed
with the "parse filters" context. -/
theorem severity_string_parse_witness :
    parseFilters (fun _ => Except.ok [⟨FilterTypeVulnerability, JValue.str "High"⟩])
        "raw" =
      Except.error (PError.malformed (some "parse filters") (RawErr.numInvalid "High")) :=
  (severity_string_parse (fun _ => Except.ok [⟨FilterTypeVulnerability, JValue.str "High"⟩])
    "raw" "High" ⟨FilterTypeVulnerability, JValue.str "High"⟩ []
    (by decide) (by rfl) (by rfl) (by rfl)).1
    (RawErr.numInvalid "High") (by rfl)

theorem digitChar_spec : ∀ d : Nat, d < 10 →
    (Char.ofNat (48 + d)).isDigit = true ∧ digitVal (Char.ofNat (48 + d)) = d := by decide

theorem isDigit_ne_signs {c : Char} (h : c.isDigit = true) : ¬(c = '-' ∨ c = '+') := by
  rintro (rfl | rfl) <;> exact absurd h (by decide)

theorem parseInt32_pos_digits (c : Char) (cs : List Char)
    (hall : (c :: cs).all Char.isDigit = true) (hval : digitsVal (c :: cs) < 2 ^ 31) :
    parseInt32 (String.mk (c :: cs)) = Except.ok ((digitsVal (c :: cs) : Int)) := by
  have hc : c.isDigit = true := by
    rw [List.all_cons] at hall
    exact (Bool.and_eq_true _ _).mp hall |>.1
  have hsign := isDigit_ne_signs hc
  have hcm : c ≠ '-' := fun hh => hsign (Or.inl hh)
  show (match (String.mk (c :: cs)).data with
    | [] => Except.error (RawErr.numInvalid (String.mk (c :: cs)))
    | c :: cs =>
      let ds := if c = '-' ∨ c = '+' then cs else c :: cs
      if ds = [] then Except.error (RawErr.numInvalid (String.mk (c :: cs)))
      else if ds.all Char.isDigit then
        let u := digitsVal ds
        if c = '-' then
          if u ≤ 2 ^ 31 then Except.ok (-(u : Int))
          else Except.error (RawErr.numOutOfRange (String.mk (c :: cs)))
        else
          if u < 2 ^ 31 then Except.ok (u : Int)
          else Except.error (RawErr.numOutOfRange (String.mk (c :: cs)))
      else Except.error (RawErr.numInvalid (String.mk (c :: cs)))) = _
  simp only [if_neg hsign]
  rw [if_neg (by simp : ¬(c :: cs = []))]
  rw [if_pos hall, if_neg hcm, if_pos hval]

theorem parseInt32_neg_digits (l : List Char) (hne : l ≠ [])
    (hall : l.all Char.isDigit = true) (hval : digitsVal l ≤ 2 ^ 31) :
    parseInt32 (String.mk ('-' :: l)) = Except.ok (-(digitsVal l : Int)) := by
  show (match (String.mk ('-' :: l)).data with
    | [] => Except.error (RawErr.numInvalid (String.mk ('-' :: l)))
    | c :: cs =>
      let ds := if c = '-' ∨ c = '+' then cs else c :: cs
      if ds = [] then Except.error (RawErr.numInvalid (String.mk ('-' :: l)))
      else if ds.all Char.isDigit then
        let u := digitsVal ds
        if c = '-' then
          if u ≤ 2 ^ 31 then Except.ok (-(u : Int))
          else Except.error (RawErr.numOutOfRange (String.mk ('-' :: l)))
        else
          if u < 2 ^ 31 then Except.ok (u : Int)
          else Except.error (RawErr.numOutOfRange (String.mk ('-' :: l)))
      else Except.error (RawErr.numInvalid (String.mk ('-' :: l)))) = _
  simp only [true_or, ite_true]
  rw [if_neg hne, if_pos hall, if_pos hval]

theorem foldl_digitVal_map (L : List Nat) :
    ∀ a : Nat, (∀ d ∈ L, d < 10) →
      List.foldl (fun x c => x * 10 + digitVal c) a
          (L.map (fun d => Char.ofNat (48 + d))) =
        List.foldl (fun x d => x * 10 + d) a L := by
  induction L with
  | nil => intro a _; rfl
  | cons d L ih =>
    intro a hL
    simp only [List.map_cons, List.foldl_cons]
    rw [(digitChar_spec d (hL d (by simp))).2]
    exact ih _ (fun d' hd' => hL d' (by simp [hd']))

theorem foldl_base10 (L : List Nat) : ∀ a : Nat,
    List.foldl (fun x d => x * 10 + d) a L =
      a * 10 ^ L.length + Nat.ofDigits 10 L.reverse := by
  induction L with
  | nil => intro a; simp
  | cons d L ih =>
    intro a
    simp only [List.foldl_cons, List.length_cons, List.reverse_cons]
    rw [ih (a * 10 + d), Nat.ofDigits_append]
    simp only [Nat.ofDigits_singleton, List.length_reverse, pow_succ]
    ring

theorem digitsVal_natDecDigits (n : Nat) : digitsVal (natDecDigits n) = n := by
  unfold digitsVal natDecDigits
  rw [foldl_digitVal_map _ 0
    (fun d hd => Nat.digits_lt_base (by norm_num) (List.mem_reverse.mp hd)), foldl_base10]
  simp [Nat.ofDigits_digits]

theorem natDecDigits_all_isDigit (n : Nat) : (natDecDigits n).all Char.isDigit = true := by
  rw [List.all_eq_true]
  intro c hc
  obtain ⟨d, hd, rfl⟩ := List.mem_map.mp hc
  exact (digitChar_spec d (Nat.digits_lt_base (by norm_num) (List.mem_reverse.mp hd))).1

theorem natDecDigits_ne_nil (n : Nat) (h : n ≠ 0) : natDecDigits n ≠ [] := by
  unfold natDecDigits
  simp [Nat.digits_ne_nil_iff_ne_zero.mpr h]

theorem parseInt32_natDecString (n : Nat) (h : n < 2 ^ 31) :
    parseInt32 (natDecString n) = Except.ok ((n : Int)) := by
  by_cases h0 : n = 0
  · subst h0; rfl
  · rw [natDecString, if_neg h0]
    obtain ⟨c, cs, hcs⟩ : ∃ c cs, natDecDigits n = c :: cs := by
      cases hd : natDecDigits n with
      | nil => exact absurd hd (natDecDigits_ne_nil n h0)
      | cons c cs => exact ⟨c, cs, rfl⟩
    rw [hcs]
    rw [parseInt32_pos_digits c cs (hcs ▸ natDecDigits_all_isDigit n)
      (by rw [← hcs, digitsVal_natDecDigits]; exact h)]
    rw [← hcs, digitsVal_natDecDigits]

theorem parseInt32_intDecString (n : Int) (h1 : -(2 ^ 31) ≤ n) (h2 : n < 2 ^ 31) :
    parseInt32 (intDecString n) = Except.ok n := by
  have hpow : ((2 : Int) ^ 31) = 2147483648 := by norm_num
  rw [hpow] at h1 h2
  by_cases hn : n < 0
  · rw [intDecString, if_pos hn]
    have hnz : n.natAbs ≠ 0 := by omega
    rw [natDecString, if_neg hnz]
    have hmk : ("-" ++ String.mk (natDecDigits n.natAbs)) =
        String.mk ('-' :: natDecDigits n.natAbs) := rfl
    rw [hmk]
    rw [parseInt32_neg_digits _ (natDecDigits_ne_nil _ hnz) (natDecDigits_all_isDigit _)
      (by rw [digitsVal_natDecDigits]; omega)]
    rw [digitsVal_natDecDigits]
    congr 1
    omega
  · rw [intDecString, if_neg hn]
    have hlt : n.natAbs < 2 ^ 31 := by
      have hp : (2 : Nat) ^ 31 = 2147483648 := by norm_num
      omega
    rw [parseInt32_natDecString _ hlt]
    congr 1
    omega

/-- C10: the float path of the severity coercion truncates toward
zero for negative values too — for `x < 0` the stored integer is
`-⌊-x⌋`, the negated floor of the magnitude, so -7.9 becomes -7 — and
the string path accepts the canonical decimal spelling of every
signed integer in the 32-bit range, negative severities included,
storing the parsed value as an integer. -/
theorem negative_severity_truncation (x : ℚ) (n : Int)
    (hx : x < 0) (hn1 : -(2 ^ 31) ≤ n) (hn2 : n < 2 ^ 31) :
    (∀ f : Filter, f.type = FilterTypeVulnerability → f.value = JValue.num x →
      convertFilter f = Except.ok { f with value := JValue.int (-⌊-x⌋) }) ∧
    convertFilter ⟨FilterTypeVulnerability, JValue.num ((-79 : ℚ) / 10)⟩ =
      Except.ok ⟨FilterTypeVulnerability, JValue.int (-7)⟩ ∧
    parseInt32 (intDecString n) = Except.ok n ∧
    convertFilter ⟨FilterTypeVulnerability, JValue.str "-7"⟩ =
      Except.ok ⟨FilterTypeVulnerability, JValue.int (-7)⟩ := by
  refine ⟨?_, ?_, parseInt32_intDecString n hn1 hn2, by rfl⟩
  · intro f hT hV
    rw [convertFilter_vuln_num hT hV, truncTowardZero_of_neg x hx]
  · rw [qneg79_eq]
    rfl

/-- Witness for C10 at the concrete float -7.9 and the lowest 32-bit
integer. -/
theorem negative_severity_truncation_witness :
    parseInt32 (intDecString (-2147483648)) = Except.ok (-2147483648) :=
  (negative_severity_truncation (mkRat (-79) 10) (-2147483648)
    (by decide) (by decide) (by decide)).2.2.1

end PreheatPolicy
